import Mathlib

/-!
Shallow embedding of `src/arena.h` (fluent-libc arena allocator).

Heap model: each successful `malloc` returns a fresh abstract buffer
identity (a natural number) and records it in a list of live allocations;
`free` deletes the identity from that list.  An oracle `ok : Nat → Bool`,
indexed by the running count of `malloc` calls, decides whether each
`malloc` succeeds, so out-of-memory paths are expressible.  Pointers
returned by the allocator are pairs `(buffer id, byte offset)`.
-/

namespace Arena

/-- The `arena_t` struct of `src/arena.h`: one chunk.  `selfId` is the
identity of the heap cell holding the `arena_t` record itself (the vector
stores `arena_t *`), `memory` the identity of the malloc'd byte buffer,
`size` its byte capacity and `used` the bump offset. -/
structure Chunk where
  selfId : Nat
  memory : Nat
  size : Nat
  used : Nat
  deriving Repr, DecidableEq

/-- The `arena_allocator_t` struct: a vector of chunk pointers (modelled as
a list in insertion order), the element size and the elements-per-chunk
count. -/
structure ArenaAllocator where
  chunks : List Chunk
  el_size : Nat
  chunk_els : Nat
  deriving Repr, DecidableEq

/-- The host heap: `nextId` is the next fresh buffer identity, `ok n`
tells whether the `n`-th `malloc` call (counted by `callCount`) succeeds,
and `live` lists the identities of currently allocated, unfreed cells. -/
structure Heap where
  nextId : Nat
  ok : Nat → Bool
  callCount : Nat
  live : List Nat

/-- `malloc`: consult the oracle; on success hand out the fresh identity
`nextId` and mark it live. -/
def Heap.malloc (h : Heap) : Heap × Option Nat :=
  if h.ok h.callCount then
    (⟨h.nextId + 1, h.ok, h.callCount + 1, h.nextId :: h.live⟩, some h.nextId)
  else
    (⟨h.nextId, h.ok, h.callCount + 1, h.live⟩, none)

/-- `free`: remove an identity from the live list. -/
def Heap.free (h : Heap) (id : Nat) : Heap :=
  ⟨h.nextId, h.ok, h.callCount, h.live.erase id⟩

/-- `arena_new` from `src/arena.h`: malloc the allocator struct, then the
vector struct (freeing the allocator if that fails), initialise the empty
vector and store `el_size` and `chunk_els` verbatim.  Returns `none` on
allocation failure.  The allocator/vector cells have no observable
identity in the model beyond their effect on the heap. -/
def arena_new (h : Heap) (chunk_els el_size : Nat) : Heap × Option ArenaAllocator :=
  match h.malloc with
  | (h1, none) => (h1, none)
  | (h1, some allocatorId) =>
    match h1.malloc with
    | (h2, none) => (h2.free allocatorId, none)
    | (h2, some _) => (h2, some ⟨[], el_size, chunk_els⟩)

/-- A pointer returned by `arena_malloc`: buffer identity and byte
offset from that buffer's base. -/
abbrev Ptr := Nat × Nat

/-- The `has_space` computation of `arena_malloc`: when the vector is
nonempty, the last chunk has space iff `used + el_size ≤ size`; an empty
vector yields `false` (the flag's initial value in the code). -/
def hasSpace (a : ArenaAllocator) : Bool :=
  match a.chunks.getLast? with
  | none => false
  | some last_chunk => decide (last_chunk.used + a.el_size ≤ last_chunk.size)

/-- The tail of `arena_malloc`: fetch the last chunk, return a pointer at
offset `used` into its buffer and advance `used` by `el_size`.  (In the
code the vector is provably nonempty at this point; an empty vector would
be undefined behaviour of `vec_arena_get`, modelled as a failed call.) -/
def bumpLast (h : Heap) (a : ArenaAllocator) :
    Heap × Option ArenaAllocator × Option Ptr :=
  match a.chunks.getLast? with
  | none => (h, some a, none)
  | some last =>
    (h,
     some ⟨a.chunks.dropLast ++ [⟨last.selfId, last.memory, last.size,
             last.used + a.el_size⟩], a.el_size, a.chunk_els⟩,
     some (last.memory, last.used))

/-- `arena_malloc` from `src/arena.h`.  Returns the updated heap, the
updated arena (a `NULL` arena is left as `none`) and the returned pointer
(`none` when the C function returns `NULL`). -/
def arena_malloc (h : Heap) (arenaOpt : Option ArenaAllocator) :
    Heap × Option ArenaAllocator × Option Ptr :=
  match arenaOpt with
  | none => (h, none, none)
  | some arena =>
    if arena.chunks.length = 0 ∨ hasSpace arena = false then
      -- allocate a new chunk buffer, then the arena_t record
      match h.malloc with
      | (h1, none) => (h1, some arena, none)
      | (h1, some chunkMem) =>
        match h1.malloc with
        | (h2, none) => (h2.free chunkMem, some arena, none)
        | (h2, some recId) =>
          -- new chunk: size = el_size * chunk_els, used = 0; push, then bump
          bumpLast h2
            ⟨arena.chunks ++ [⟨recId, chunkMem, arena.el_size * arena.chunk_els, 0⟩],
             arena.el_size, arena.chunk_els⟩
    else
      bumpLast h arena

/-- One event of the teardown trace produced by `destroy_arena`. -/
inductive FreeEvent where
  | buffer (id : Nat)
  | record (id : Nat)
  | tracker
  | arena
  deriving Repr, DecidableEq

/-- The per-chunk loop of `destroy_arena`: for each chunk in vector order,
`free(chunk->memory)` then `free(chunk)`. -/
def destroyLoop : List Chunk → List FreeEvent
  | [] => []
  | c :: rest => .buffer c.memory :: .record c.selfId :: destroyLoop rest

/-- `destroy_arena` from `src/arena.h`, abstracted to the trace of `free`
calls it issues in order: a no-op on a `NULL` arena; otherwise the chunk
loop, then `vec_arena_destroy` (the tracker), then `free(arena)`. -/
def destroy_arena : Option ArenaAllocator → List FreeEvent
  | none => []
  | some a => destroyLoop a.chunks ++ [FreeEvent.tracker, FreeEvent.arena]

/-- Modelled from the spec: the repository ships two near-duplicate
variants of this allocator and only the `destroy`-variant is present under
`src/`; the `reset` operation exists only in the spec.  Spec: "Iterates
every chunk in the sequence and sets `used = 0`.  Buffers and chunk
records are retained (no deallocation)"; "Fails silently (no-op) if
`arena` is an invalid/unset handle". -/
def arena_reset (arenaOpt : Option ArenaAllocator) : Option ArenaAllocator :=
  match arenaOpt with
  | none => none
  | some a =>
    some ⟨a.chunks.map (fun c => ⟨c.selfId, c.memory, c.size, 0⟩),
          a.el_size, a.chunk_els⟩

/-- Run `arena_malloc` `n` times, threading heap and arena and collecting
the returned pointers in call order. -/
def allocN : Nat → Heap → Option ArenaAllocator →
    Heap × Option ArenaAllocator × List (Option Ptr)
  | 0, h, a => (h, a, [])
  | n + 1, h, a =>
    ((allocN n (arena_malloc h a).1 (arena_malloc h a).2.1).1,
     (allocN n (arena_malloc h a).1 (arena_malloc h a).2.1).2.1,
     (arena_malloc h a).2.2 ::
       (allocN n (arena_malloc h a).1 (arena_malloc h a).2.1).2.2)

/-- A heap whose `malloc` never fails, with fresh identities from 0. -/
def okHeap : Heap := ⟨0, fun _ => true, 0, []⟩

/-- A heap whose `malloc` always fails. -/
def noHeap : Heap := ⟨0, fun _ => false, 0, []⟩

/-- A heap whose first `malloc` succeeds and whose second fails: it makes
the chunk buffer allocation succeed but the `arena_t` record allocation
fail inside `arena_malloc`. -/
def oneShotHeap : Heap := ⟨0, fun n => decide (n = 0), 0, []⟩

/-! ### Basic step lemmas -/

theorem malloc_ok (h : Heap) (hok : h.ok h.callCount = true) :
    h.malloc = (⟨h.nextId + 1, h.ok, h.callCount + 1, h.nextId :: h.live⟩, some h.nextId) := by
  simp [Heap.malloc, hok]

theorem hasSpace_concat (a : ArenaAllocator) (cs : List Chunk) (c : Chunk)
    (hc : a.chunks = cs ++ [c]) :
    hasSpace a = decide (c.used + a.el_size ≤ c.size) := by
  simp [hasSpace, hc, List.getLast?_concat]

theorem bumpLast_concat (h : Heap) (a : ArenaAllocator) (cs : List Chunk) (c : Chunk)
    (hc : a.chunks = cs ++ [c]) :
    bumpLast h a =
      (h, some ⟨cs ++ [⟨c.selfId, c.memory, c.size, c.used + a.el_size⟩],
          a.el_size, a.chunk_els⟩,
       some (c.memory, c.used)) := by
  simp [bumpLast, hc, List.getLast?_concat, List.dropLast_concat]

/-- In-chunk step: when the last chunk has space, `arena_malloc` leaves
the heap alone, bumps the last chunk's `used` and returns a pointer at
offset `used` into that chunk's buffer. -/
theorem arena_malloc_hasSpace (h : Heap) (a : ArenaAllocator) (cs : List Chunk) (c : Chunk)
    (hc : a.chunks = cs ++ [c]) (hsp : c.used + a.el_size ≤ c.size) :
    arena_malloc h (some a) =
      (h, some ⟨cs ++ [⟨c.selfId, c.memory, c.size, c.used + a.el_size⟩],
          a.el_size, a.chunk_els⟩,
       some (c.memory, c.used)) := by
  rw [arena_malloc, if_neg, bumpLast_concat h a cs c hc]
  rw [hasSpace_concat a cs c hc, hc]
  simp [hsp]

/-- Growth step: when the vector is empty or the last chunk is full and
both `malloc` calls succeed, `arena_malloc` appends a fresh chunk of size
`el_size * chunk_els`, bumps its `used` to `el_size` and returns the new
chunk's base. -/
theorem arena_malloc_grow (h : Heap) (a : ArenaAllocator)
    (hfull : a.chunks.length = 0 ∨ hasSpace a = false)
    (hok1 : h.ok h.callCount = true) (hok2 : h.ok (h.callCount + 1) = true) :
    arena_malloc h (some a) =
      (⟨h.nextId + 2, h.ok, h.callCount + 2, (h.nextId + 1) :: h.nextId :: h.live⟩,
       some ⟨a.chunks ++ [⟨h.nextId + 1, h.nextId, a.el_size * a.chunk_els, a.el_size⟩],
         a.el_size, a.chunk_els⟩,
       some (h.nextId, 0)) := by
  rw [arena_malloc, if_pos hfull, malloc_ok h hok1]
  dsimp only
  rw [malloc_ok _ (by simpa using hok2)]
  dsimp only
  rw [bumpLast_concat _ _ a.chunks ⟨h.nextId + 1, h.nextId, a.el_size * a.chunk_els, 0⟩ rfl]
  simp

/-- `arena_new` under a never-failing heap: two `malloc` calls, an empty
chunk vector, and the parameters stored verbatim. -/
theorem arena_new_ok (h : Heap) (ce el : Nat) (hok : ∀ j, h.ok j = true) :
    arena_new h ce el =
      (⟨h.nextId + 2, h.ok, h.callCount + 2, (h.nextId + 1) :: h.nextId :: h.live⟩,
       some ⟨[], el, ce⟩) := by
  rw [arena_new, malloc_ok h (hok _)]
  dsimp only
  rw [malloc_ok _ (by simpa using hok (h.callCount + 1))]

/-! ### Multi-step run lemmas -/

/-- A `NULL` arena stays `NULL` and yields only failed allocations. -/
theorem allocN_none (n : Nat) (h : Heap) :
    allocN n h none = (h, none, List.replicate n none) := by
  induction n with
  | zero => rfl
  | succ n ih => simp [allocN, arena_malloc, ih, List.replicate_succ]

/-- Peeling a run of `n + 1` allocations from the back. -/
theorem allocN_succ_back (n : Nat) (h : Heap) (a : Option ArenaAllocator) :
    allocN (n + 1) h a =
      ((arena_malloc (allocN n h a).1 (allocN n h a).2.1).1,
       (arena_malloc (allocN n h a).1 (allocN n h a).2.1).2.1,
       (allocN n h a).2.2 ++ [(arena_malloc (allocN n h a).1 (allocN n h a).2.1).2.2]) := by
  induction n generalizing h a with
  | zero => simp [allocN]
  | succ n ih =>
    conv_lhs => rw [allocN, ih]
    conv_rhs => rw [allocN]
    simp

/-- Mapping over `range (n+1)`, split off the head. -/
theorem range_map_shift {α : Type} (f : Nat → α) (n : Nat) :
    (List.range (n + 1)).map f = f 0 :: (List.range n).map (fun i => f (i + 1)) := by
  rw [List.range_succ_eq_map, List.map_cons, List.map_map]
  rfl

/-- Runs that stay inside one chunk: starting from a single chunk of
capacity `el * ce` filled to `k * el`, `n` further allocations (with
`k + n ≤ ce`) stay in that chunk, leave the heap untouched and return the
pointers at offsets `k * el, (k+1) * el, …`. -/
theorem allocN_single_chunk (n : Nat) : ∀ (k : Nat) (h : Heap) (r m el ce : Nat),
    k + n ≤ ce →
    allocN n h (some ⟨[⟨r, m, el * ce, k * el⟩], el, ce⟩) =
      (h, some ⟨[⟨r, m, el * ce, (k + n) * el⟩], el, ce⟩,
       (List.range n).map (fun i => some (m, (k + i) * el))) := by
  induction n with
  | zero => intro k h r m el ce _; simp [allocN]
  | succ n ih =>
    intro k h r m el ce hn
    rw [allocN]
    rw [arena_malloc_hasSpace h _ [] ⟨r, m, el * ce, k * el⟩ rfl
      (by
        have h1 : k + 1 ≤ ce := by omega
        calc k * el + el = (k + 1) * el := by ring
        _ ≤ ce * el := Nat.mul_le_mul_right el h1
        _ = el * ce := Nat.mul_comm ce el)]
    have h2 : k * el + el = (k + 1) * el := by ring
    dsimp only
    simp only [List.nil_append]
    rw [h2, ih (k + 1) h r m el ce (by omega)]
    rw [range_map_shift (fun i => some ((m, (k + i) * el) : Ptr)) n]
    have h3 : k + 1 + n = k + (n + 1) := by omega
    have h4 : (List.range n).map (fun i => some ((m, (k + 1 + i) * el) : Ptr)) =
        (List.range n).map (fun i => some ((m, (k + (i + 1)) * el) : Ptr)) :=
      List.map_congr_left (fun a _ => by rw [show k + 1 + a = k + (a + 1) from by omega])
    rw [h3, h4]
    simp

/-- A fresh arena under a never-failing heap: the first allocation creates
one chunk of `el * ce` bytes and the first `n ≤ ce` allocations all land
in it, at offsets `0, el, 2·el, …`. -/
theorem allocN_fresh (n : Nat) (h : Heap) (el ce : Nat) (hok : ∀ j, h.ok j = true)
    (h1 : 1 ≤ n) (h2 : n ≤ ce) :
    allocN n h (some ⟨[], el, ce⟩) =
      (⟨h.nextId + 2, h.ok, h.callCount + 2, (h.nextId + 1) :: h.nextId :: h.live⟩,
       some ⟨[⟨h.nextId + 1, h.nextId, el * ce, n * el⟩], el, ce⟩,
       (List.range n).map (fun i => some (h.nextId, i * el))) := by
  obtain ⟨n', rfl⟩ : ∃ n', n = n' + 1 := ⟨n - 1, by omega⟩
  rw [allocN]
  rw [arena_malloc_grow h ⟨[], el, ce⟩ (Or.inl rfl) (hok _) (hok _)]
  dsimp only
  rw [show ([] ++ [(⟨h.nextId + 1, h.nextId, el * ce, el⟩ : Chunk)]) =
        [(⟨h.nextId + 1, h.nextId, el * ce, 1 * el⟩ : Chunk)] by rw [Nat.one_mul]; rfl]
  rw [allocN_single_chunk n' 1 _ (h.nextId + 1) h.nextId el ce (by omega)]
  rw [range_map_shift (fun i => some ((h.nextId, i * el) : Ptr)) n']
  have h4 : (List.range n').map (fun i => some ((h.nextId, (1 + i) * el) : Ptr)) =
      (List.range n').map (fun i => some ((h.nextId, (i + 1) * el) : Ptr)) :=
    List.map_congr_left (fun a _ => by rw [show 1 + a = a + 1 from by omega])
  rw [h4]
  simp [Nat.add_comm 1 n']

/-- A single zero-sized chunk absorbs every allocation: with
`el_size = 0` the space check `0 + 0 ≤ 0` always passes, the pointer is
always the chunk base and `used` never moves. -/
theorem allocN_zero_el (n : Nat) : ∀ (h : Heap) (r m ce : Nat),
    allocN n h (some ⟨[⟨r, m, 0, 0⟩], 0, ce⟩) =
      (h, some ⟨[⟨r, m, 0, 0⟩], 0, ce⟩, List.replicate n (some (m, 0))) := by
  induction n with
  | zero => intro h r m ce; simp [allocN]
  | succ n ih =>
    intro h r m ce
    rw [allocN, arena_malloc_hasSpace h _ [] ⟨r, m, 0, 0⟩ rfl (by simp)]
    dsimp only
    simp only [List.nil_append, Nat.add_zero]
    rw [ih]
    simp [List.replicate_succ]

/-! ### Claim theorems -/

/-- C1: for every arena created with `elements_per_chunk > 0` and
`element_size > 0` (under a heap whose allocations succeed), the first
`elements_per_chunk` calls to allocate create at most one chunk in total
— every prefix of the run sees at most one chunk — and the `i`-th call
(`i` from 0) returns a pointer offset exactly `i * element_size` bytes
from that chunk's base. -/
theorem first_chunk_linear_offsets (ce el : Nat) (h : Heap)
    (hce : 0 < ce) (_hel : 0 < el) (hok : ∀ j, h.ok j = true) :
    ∃ c : Chunk,
      (allocN ce (arena_new h ce el).1 (arena_new h ce el).2).2.1 = some ⟨[c], el, ce⟩ ∧
      (∀ j a', j ≤ ce →
        (allocN j (arena_new h ce el).1 (arena_new h ce el).2).2.1 = some a' →
        a'.chunks.length ≤ 1) ∧
      (allocN ce (arena_new h ce el).1 (arena_new h ce el).2).2.2 =
        (List.range ce).map (fun i => some (c.memory, i * el)) := by
  rw [arena_new_ok h ce el hok]
  dsimp only
  rw [allocN_fresh ce _ el ce (by exact hok) hce le_rfl]
  refine ⟨⟨h.nextId + 3, h.nextId + 2, el * ce, ce * el⟩, rfl, ?_, rfl⟩
  intro j a' hj ha'
  rcases Nat.eq_zero_or_pos j with hj0 | hj1
  · subst hj0
    simp only [allocN] at ha'
    cases ha'
    simp
  · rw [allocN_fresh j _ el ce (by exact hok) hj1 hj] at ha'
    cases ha'
    simp

/-- C2: the `(elements_per_chunk + 1)`-th allocate call after creation
adds a second chunk (chunk count goes from 1 to 2, with a distinct
buffer) and returns the new chunk's base. -/
theorem second_chunk_on_overflow (ce el : Nat) (h : Heap)
    (hce : 0 < ce) (hel : 0 < el) (hok : ∀ j, h.ok j = true) :
    ∃ c1 c2 : Chunk,
      (allocN ce (arena_new h ce el).1 (arena_new h ce el).2).2.1 = some ⟨[c1], el, ce⟩ ∧
      (allocN (ce + 1) (arena_new h ce el).1 (arena_new h ce el).2).2.1 =
        some ⟨[c1, c2], el, ce⟩ ∧
      c2.memory ≠ c1.memory ∧
      (allocN (ce + 1) (arena_new h ce el).1 (arena_new h ce el).2).2.2 =
        (allocN ce (arena_new h ce el).1 (arena_new h ce el).2).2.2 ++
          [some (c2.memory, 0)] := by
  rw [arena_new_ok h ce el hok]
  dsimp only
  rw [allocN_succ_back ce]
  rw [allocN_fresh ce _ el ce (by exact hok) hce le_rfl]
  dsimp only
  have hfull : ¬(ce * el + el ≤ el * ce) := by
    rw [Nat.mul_comm el ce]
    omega
  rw [arena_malloc_grow _ ⟨[⟨h.nextId + 3, h.nextId + 2, el * ce, ce * el⟩], el, ce⟩
    (Or.inr (by rw [hasSpace_concat _ [] _ rfl]; simpa using hfull))
    (by exact hok _) (by exact hok _)]
  refine ⟨⟨h.nextId + 3, h.nextId + 2, el * ce, ce * el⟩,
          ⟨h.nextId + 5, h.nextId + 4, el * ce, el⟩, rfl, by simp, by dsimp only; omega, rfl⟩

/-- C8: `arena_malloc` on an invalid/unset (NULL) arena handle reports
failure (`NULL` pointer) without touching the heap — nothing is
allocated. -/
theorem null_arena_alloc_noop (h : Heap) :
    arena_malloc h none = (h, none, none) := rfl

/-- C10: for an arena created with `element_size = 0` (allocations
succeeding), every allocate call returns the same pointer — the single
chunk's base — the chunk's `used` counter never advances, and no further
chunk is ever created. -/
theorem zero_el_size_same_pointer (ce : Nat) (h : Heap) (hok : ∀ j, h.ok j = true)
    (n : Nat) (hn : 1 ≤ n) :
    ∃ c : Chunk,
      (allocN n (arena_new h ce 0).1 (arena_new h ce 0).2).2.1 = some ⟨[c], 0, ce⟩ ∧
      c.used = 0 ∧
      (allocN n (arena_new h ce 0).1 (arena_new h ce 0).2).2.2 =
        List.replicate n (some (c.memory, 0)) := by
  rw [arena_new_ok h ce 0 hok]
  dsimp only
  obtain ⟨n', rfl⟩ : ∃ n', n = n' + 1 := ⟨n - 1, by omega⟩
  rw [allocN]
  rw [arena_malloc_grow _ ⟨[], 0, ce⟩ (Or.inl rfl) (by exact hok _) (by exact hok _)]
  dsimp only
  simp only [Nat.zero_mul, List.nil_append]
  rw [allocN_zero_el n']
  exact ⟨⟨h.nextId + 3, h.nextId + 2, 0, 0⟩, rfl, rfl, by simp [List.replicate_succ]⟩

/-! ### Failure-path lemmas and case eliminations -/

theorem malloc_fail (h : Heap) (hok : h.ok h.callCount = false) :
    h.malloc = (⟨h.nextId, h.ok, h.callCount + 1, h.live⟩, none) := by
  simp [Heap.malloc, hok]

/-- First `malloc` (the chunk buffer) fails: the arena is returned
unchanged and no pointer is produced. -/
theorem arena_malloc_fail1 (h : Heap) (a : ArenaAllocator)
    (hcond : a.chunks.length = 0 ∨ hasSpace a = false)
    (hok : h.ok h.callCount = false) :
    arena_malloc h (some a) =
      (⟨h.nextId, h.ok, h.callCount + 1, h.live⟩, some a, none) := by
  rw [arena_malloc, if_pos hcond, malloc_fail h hok]

/-- Second `malloc` (the `arena_t` record) fails: the chunk buffer is
freed again, the arena is returned unchanged and no pointer is
produced. -/
theorem arena_malloc_fail2 (h : Heap) (a : ArenaAllocator)
    (hcond : a.chunks.length = 0 ∨ hasSpace a = false)
    (hok1 : h.ok h.callCount = true) (hok2 : h.ok (h.callCount + 1) = false) :
    arena_malloc h (some a) =
      (⟨h.nextId + 1, h.ok, h.callCount + 2, h.live⟩, some a, none) := by
  rw [arena_malloc, if_pos hcond, malloc_ok h hok1]
  dsimp only
  rw [malloc_fail _ (by simpa using hok2)]
  dsimp only [Heap.free]
  rw [List.erase_cons_head]

/-- A true `has_space` flag exposes the last chunk and its space bound. -/
theorem hasSpace_true_elim (a : ArenaAllocator) (hsp : hasSpace a = true) :
    ∃ cs c, a.chunks = cs ++ [c] ∧ c.used + a.el_size ≤ c.size := by
  unfold hasSpace at hsp
  rcases hgl : a.chunks.getLast? with _ | c
  · rw [hgl] at hsp; cases hsp
  · rw [hgl] at hsp
    have hne : a.chunks ≠ [] := by intro e; rw [e] at hgl; cases hgl
    rw [List.getLast?_eq_getLast_of_ne_nil hne] at hgl
    have h3 : a.chunks.getLast hne = c := by injection hgl
    refine ⟨a.chunks.dropLast, c, ?_, by simpa using hsp⟩
    rw [← h3, List.dropLast_append_getLast hne]

/-- `arena_new` either fails or returns an empty arena holding the
parameters verbatim. -/
theorem arena_new_shape (h : Heap) (ce el : Nat) :
    (arena_new h ce el).2 = none ∨ (arena_new h ce el).2 = some ⟨[], el, ce⟩ := by
  rcases hm1 : h.malloc with ⟨h1, o1⟩
  rcases hm2 : h1.malloc with ⟨h2, o2⟩
  unfold arena_new
  rw [hm1]
  cases o1 with
  | none => left; rfl
  | some aid =>
    dsimp only
    rw [hm2]
    cases o2 with
    | none => left; rfl
    | some vid => right; rfl

/-! ### C4: chunk-size and used-bound invariants -/

/-- The arena invariants of the spec: every chunk's `size` equals
`element_size * elements_per_chunk`, and `0 ≤ used ≤ size` (the lower
bound is a fact of `Nat`). -/
def ArenaInv (a : ArenaAllocator) : Prop :=
  ∀ c ∈ a.chunks, c.size = a.el_size * a.chunk_els ∧ c.used ≤ c.size

instance (a : ArenaAllocator) : Decidable (ArenaInv a) :=
  inferInstanceAs (Decidable (∀ c ∈ a.chunks,
    c.size = a.el_size * a.chunk_els ∧ c.used ≤ c.size))

/-- C4: every operation preserves the invariants — `arena_new` (with any
heap) establishes them, and `arena_malloc` and `arena_reset` preserve
them — for arenas with positive `elements_per_chunk` and
`element_size`. -/
theorem operations_preserve_invariants (h : Heap) :
    (∀ ce el a', (arena_new h ce el).2 = some a' → ArenaInv a') ∧
    (∀ a, 0 < a.chunk_els → 0 < a.el_size → ArenaInv a →
      ∀ a', (arena_malloc h (some a)).2.1 = some a' → ArenaInv a') ∧
    (∀ a, ArenaInv a → ∀ a', arena_reset (some a) = some a' → ArenaInv a') := by
  refine ⟨?_, ?_, ?_⟩
  · intro ce el a' ha'
    rcases arena_new_shape h ce el with hn | hn <;> rw [hn] at ha'
    · cases ha'
    · cases ha'
      intro c hc
      cases hc
  · intro a hce _hel hinv a' ha'
    by_cases hcond : a.chunks.length = 0 ∨ hasSpace a = false
    · -- growth path
      cases hok1 : h.ok h.callCount with
      | false =>
        rw [arena_malloc_fail1 h a hcond hok1] at ha'
        cases ha'; exact hinv
      | true =>
        cases hok2 : h.ok (h.callCount + 1) with
        | false =>
          rw [arena_malloc_fail2 h a hcond hok1 hok2] at ha'
          cases ha'; exact hinv
        | true =>
          rw [arena_malloc_grow h a hcond hok1 hok2] at ha'
          cases ha'
          intro c hc
          rcases List.mem_append.mp hc with hc | hc
          · exact hinv c hc
          · rcases List.mem_singleton.mp hc with rfl
            refine ⟨rfl, ?_⟩
            calc a.el_size = a.el_size * 1 := (Nat.mul_one _).symm
            _ ≤ a.el_size * a.chunk_els := Nat.mul_le_mul_left _ hce
    · -- bump path
      push_neg at hcond
      obtain ⟨_, hsp⟩ := hcond
      obtain ⟨cs, c, hdec, hle⟩ :=
        hasSpace_true_elim a (by simpa using hsp)
      rw [arena_malloc_hasSpace h a cs c hdec hle] at ha'
      cases ha'
      intro c' hc'
      rcases List.mem_append.mp hc' with hc' | hc'
      · exact hinv c' (hdec ▸ List.mem_append_left _ hc')
      · rcases List.mem_singleton.mp hc' with rfl
        have hc2 : c ∈ a.chunks := hdec ▸ List.mem_append_right _ (by simp)
        exact ⟨(hinv c hc2).1, hle⟩
  · intro a hinv a' ha'
    cases ha'
    intro c hc
    rcases List.mem_map.mp hc with ⟨c0, hc0, rfl⟩
    exact ⟨(hinv c0 hc0).1, Nat.zero_le _⟩

/-- Witness for C4: from an empty `(el_size, chunk_els) = (16, 4)` arena,
one `arena_malloc` under `okHeap` yields a chunk with `size = 64` and
`used = 16`, satisfying the invariants. -/
theorem operations_preserve_invariants_witness :
    ArenaInv ⟨[⟨1, 0, 64, 16⟩], 16, 4⟩ :=
  (operations_preserve_invariants okHeap).2.1 ⟨[], 16, 4⟩ (by decide) (by decide)
    (by decide) ⟨[⟨1, 0, 64, 16⟩], 16, 4⟩ (by decide)

/-! ### C5: zero-valued creation parameters -/

/-- C5 counterexample: `create(0, 16)` and `create(4, 0)` do NOT fail —
`arena_new` performs no validation.  `create(0, 16)` returns an arena
that even serves a (degenerate) allocation, refuting "fails with
`InvalidArgument` and yields no usable arena". -/
theorem zero_params_create_succeeds :
    (arena_new okHeap 0 16).2 = some ⟨[], 16, 0⟩ ∧
    (arena_malloc (arena_new okHeap 0 16).1 (arena_new okHeap 0 16).2).2.2 =
      some (2, 0) ∧
    (arena_new okHeap 4 0).2 = some ⟨[], 0, 4⟩ := by decide

/-- C5 amended: `arena_new` stores zero-valued size parameters verbatim
and succeeds whenever the two underlying allocations succeed; the
resulting arena is usable (the next allocate returns a non-NULL
pointer). -/
theorem create_zero_stores_verbatim (h : Heap) (ce el : Nat)
    (hok : ∀ j, h.ok j = true) (_hzero : ce = 0 ∨ el = 0) :
    (arena_new h ce el).2 = some ⟨[], el, ce⟩ ∧
    (arena_malloc (arena_new h ce el).1 (arena_new h ce el).2).2.2 =
      some (h.nextId + 2, 0) := by
  rw [arena_new_ok h ce el hok]
  dsimp only
  refine ⟨rfl, ?_⟩
  rw [arena_malloc_grow _ ⟨[], el, ce⟩ (Or.inl rfl) (by exact hok _) (by exact hok _)]

/-- Witness for the amended C5 at `create(0, 16)` under `okHeap`. -/
theorem create_zero_stores_verbatim_witness :
    (arena_new okHeap 0 16).2 = some ⟨[], 16, 0⟩ ∧
    (arena_malloc (arena_new okHeap 0 16).1 (arena_new okHeap 0 16).2).2.2 =
      some (okHeap.nextId + 2, 0) :=
  create_zero_stores_verbatim okHeap 0 16 (fun _ => rfl) (Or.inl rfl)

/-! ### C6: allocation failure leaves the arena and heap intact -/

/-- C6: if `arena_malloc` on a valid arena fails (returns no pointer),
the arena is unchanged — no chunk added, no `used` counter modified —
and the set of live heap cells is unchanged: the partially allocated
chunk buffer, if any, has been freed again. -/
theorem alloc_failure_leaves_arena_unchanged (h : Heap) (a : ArenaAllocator)
    (hfail : (arena_malloc h (some a)).2.2 = none) :
    (arena_malloc h (some a)).2.1 = some a ∧
    ((arena_malloc h (some a)).1).live = h.live := by
  by_cases hcond : a.chunks.length = 0 ∨ hasSpace a = false
  · cases hok1 : h.ok h.callCount with
    | false => rw [arena_malloc_fail1 h a hcond hok1]; exact ⟨rfl, rfl⟩
    | true =>
      cases hok2 : h.ok (h.callCount + 1) with
      | false => rw [arena_malloc_fail2 h a hcond hok1 hok2]; exact ⟨rfl, rfl⟩
      | true =>
        rw [arena_malloc_grow h a hcond hok1 hok2] at hfail
        cases hfail
  · push_neg at hcond
    obtain ⟨_, hsp⟩ := hcond
    obtain ⟨cs, c, hdec, hle⟩ := hasSpace_true_elim a (by simpa using hsp)
    rw [arena_malloc_hasSpace h a cs c hdec hle] at hfail
    cases hfail

/-- Witness for C6: under a heap whose second `malloc` fails, allocation
from a fresh `(16, 4)` arena fails and the arena and live set are
untouched. -/
theorem alloc_failure_witness :
    (arena_malloc oneShotHeap (some ⟨[], 16, 4⟩)).2.2 = none ∧
    ((arena_malloc oneShotHeap (some ⟨[], 16, 4⟩)).2.1 = some ⟨[], 16, 4⟩ ∧
     ((arena_malloc oneShotHeap (some ⟨[], 16, 4⟩)).1).live = oneShotHeap.live) :=
  ⟨by decide, alloc_failure_leaves_arena_unchanged oneShotHeap ⟨[], 16, 4⟩ (by decide)⟩

/-! ### C7: reset -/

/-- C7 counterexample: after `create(1, 1)` and two allocations the arena
has two chunks (bases 2 and 4); after `arena_reset`, the next
`arena_malloc` returns `(4, 0)` — the base of the LAST chunk — and not
`(2, 0)`, the base of the first chunk, refuting "the next allocate after
reset returns a pointer equal to the base of the first chunk". -/
theorem reset_then_alloc_returns_last_chunk_base :
    arena_reset (allocN 2 (arena_new okHeap 1 1).1 (arena_new okHeap 1 1).2).2.1 =
      some ⟨[⟨3, 2, 1, 0⟩, ⟨5, 4, 1, 0⟩], 1, 1⟩ ∧
    (arena_malloc (allocN 2 (arena_new okHeap 1 1).1 (arena_new okHeap 1 1).2).1
        (arena_reset
          (allocN 2 (arena_new okHeap 1 1).1 (arena_new okHeap 1 1).2).2.1)).2.2 =
      some (4, 0) ∧
    some ((4 : Nat), (0 : Nat)) ≠ some ((2 : Nat), (0 : Nat)) := by decide

/-- C7 amended: `arena_reset` zeroes every chunk's `used` counter while
keeping every chunk record (count unchanged), and the next `arena_malloc`
after a reset returns the base of the LAST chunk (which is the first
chunk's base exactly when the arena has one chunk). -/
theorem reset_zeroes_used_and_alloc_reuses_last (a : ArenaAllocator) (h : Heap) :
    (∀ a', arena_reset (some a) = some a' →
      a'.chunks.length = a.chunks.length ∧ ∀ c ∈ a'.chunks, c.used = 0) ∧
    (∀ c, a.chunks.getLast? = some c → a.el_size ≤ c.size →
      (arena_malloc h (arena_reset (some a))).2.2 = some (c.memory, 0)) := by
  constructor
  · intro a' ha'
    cases ha'
    refine ⟨List.length_map .., ?_⟩
    intro c hc
    rcases List.mem_map.mp hc with ⟨c0, _, rfl⟩
    rfl
  · intro c hgl hle
    have hne : a.chunks ≠ [] := by intro e; rw [e] at hgl; cases hgl
    rw [List.getLast?_eq_getLast_of_ne_nil hne] at hgl
    have h3 : a.chunks.getLast hne = c := by injection hgl
    have hdec : a.chunks = a.chunks.dropLast ++ [c] := by
      rw [← h3, List.dropLast_append_getLast hne]
    have hmap : (arena_reset (some a)) = some
        ⟨(a.chunks.dropLast.map (fun c => ⟨c.selfId, c.memory, c.size, 0⟩)) ++
          [⟨c.selfId, c.memory, c.size, 0⟩], a.el_size, a.chunk_els⟩ := by
      show some _ = some _
      rw [hdec]
      simp
    rw [hmap, arena_malloc_hasSpace h _
      (a.chunks.dropLast.map (fun c => ⟨c.selfId, c.memory, c.size, 0⟩))
      ⟨c.selfId, c.memory, c.size, 0⟩ rfl (by simpa using hle)]

/-- Witness for the amended C7: a one-chunk `(16, 4)` arena, chunk base 2
filled to 64 of 64 bytes; after reset the chunk count is unchanged, `used`
is 0 and the next allocation returns the chunk base `(2, 0)`. -/
theorem reset_zeroes_used_witness :
    ((⟨[⟨3, 2, 64, 0⟩], 16, 4⟩ : ArenaAllocator).chunks.length =
       (⟨[⟨3, 2, 64, 64⟩], 16, 4⟩ : ArenaAllocator).chunks.length ∧
     ∀ c ∈ (⟨[⟨3, 2, 64, 0⟩], 16, 4⟩ : ArenaAllocator).chunks, c.used = 0) ∧
    (arena_malloc okHeap (arena_reset (some ⟨[⟨3, 2, 64, 64⟩], 16, 4⟩))).2.2 =
      some (2, 0) :=
  ⟨(reset_zeroes_used_and_alloc_reuses_last ⟨[⟨3, 2, 64, 64⟩], 16, 4⟩ okHeap).1
    ⟨[⟨3, 2, 64, 0⟩], 16, 4⟩ (by decide),
   (reset_zeroes_used_and_alloc_reuses_last ⟨[⟨3, 2, 64, 64⟩], 16, 4⟩ okHeap).2
     ⟨3, 2, 64, 64⟩ (by decide) (by decide)⟩

/-! ### C9: destroy order -/

theorem destroyLoop_length (cs : List Chunk) :
    (destroyLoop cs).length = 2 * cs.length := by
  induction cs with
  | nil => rfl
  | cons c rest ih => simp [destroyLoop, ih]; omega

theorem destroyLoop_get (cs : List Chunk) : ∀ i c, cs[i]? = some c →
    (destroyLoop cs)[2 * i]? = some (.buffer c.memory) ∧
    (destroyLoop cs)[2 * i + 1]? = some (.record c.selfId) := by
  induction cs with
  | nil => intro i c hg; simp at hg
  | cons c0 rest ih =>
    intro i c hg
    cases i with
    | zero =>
      simp only [List.getElem?_cons_zero] at hg
      cases hg
      refine ⟨?_, ?_⟩ <;> simp [destroyLoop]
    | succ i =>
      simp only [List.getElem?_cons_succ] at hg
      have hih := ih i c hg
      have e1 : 2 * (i + 1) = 2 * i + 1 + 1 := by omega
      rw [e1]
      simpa [destroyLoop] using hih

/-- C9 counterexample: destroying the two-chunk arena built by
`create(1, 1)` and two allocations frees, in order, buffer 2, record 3,
buffer 4, record 5, tracker, arena — the first chunk's record (3) is
freed before the second chunk's buffer (4), refuting "every chunk's
buffer, then every chunk record, … in that order". -/
theorem destroy_interleaves_buffers_and_records :
    destroy_arena (allocN 2 (arena_new okHeap 1 1).1 (arena_new okHeap 1 1).2).2.1 =
      [.buffer 2, .record 3, .buffer 4, .record 5, .tracker, .arena] ∧
    ([FreeEvent.buffer 2, .record 3, .buffer 4, .record 5, .tracker, .arena] ≠
     [FreeEvent.buffer 2, .buffer 4, .record 3, .record 5, .tracker, .arena]) := by
  decide

/-- C9 amended: `destroy_arena` frees, for each chunk in vector order,
that chunk's buffer and then its record (positions `2i` and `2i + 1` of
the trace), followed by the chunk tracker and finally the allocator
struct; on an invalid/unset (NULL) handle it is a safe no-op. -/
theorem destroy_frees_per_chunk_then_tracker_then_arena (a : ArenaAllocator) :
    destroy_arena none = [] ∧
    (destroy_arena (some a)).length = 2 * a.chunks.length + 2 ∧
    (∀ i c, a.chunks[i]? = some c →
      (destroy_arena (some a))[2 * i]? = some (.buffer c.memory) ∧
      (destroy_arena (some a))[2 * i + 1]? = some (.record c.selfId)) ∧
    (destroy_arena (some a))[2 * a.chunks.length]? = some .tracker ∧
    (destroy_arena (some a))[2 * a.chunks.length + 1]? = some .arena := by
  refine ⟨rfl, ?_, ?_, ?_, ?_⟩
  · show (destroyLoop a.chunks ++ [FreeEvent.tracker, FreeEvent.arena]).length = _
    simp [destroyLoop_length]
  · intro i c hg
    have hi : i < a.chunks.length := (List.getElem?_eq_some.mp hg).1
    have hg2 := destroyLoop_get a.chunks i c hg
    show (destroyLoop a.chunks ++ [FreeEvent.tracker, FreeEvent.arena])[2 * i]? = _ ∧
      (destroyLoop a.chunks ++ [FreeEvent.tracker, FreeEvent.arena])[2 * i + 1]? = _
    rw [List.getElem?_append_left (by rw [destroyLoop_length]; omega),
      List.getElem?_append_left (by rw [destroyLoop_length]; omega)]
    exact hg2
  · show (destroyLoop a.chunks ++ [FreeEvent.tracker, FreeEvent.arena])[2 * a.chunks.length]? = _
    rw [List.getElem?_append_right (by rw [destroyLoop_length])]
    rw [destroyLoop_length]
    simp
  · show (destroyLoop a.chunks ++ [FreeEvent.tracker, FreeEvent.arena])[2 * a.chunks.length + 1]? = _
    rw [List.getElem?_append_right (by rw [destroyLoop_length]; omega)]
    rw [destroyLoop_length]
    simp

/-- Witness for the amended C9 on a concrete two-chunk arena: chunk 1's
buffer (id 4) is freed at position 2 and its record (id 5) at position 3. -/
theorem destroy_order_witness :
    (destroy_arena (some (⟨[⟨3, 2, 1, 1⟩, ⟨5, 4, 1, 1⟩], 1, 1⟩ :
        ArenaAllocator)))[2 * 1]? = some (.buffer 4) ∧
    (destroy_arena (some (⟨[⟨3, 2, 1, 1⟩, ⟨5, 4, 1, 1⟩], 1, 1⟩ :
        ArenaAllocator)))[2 * 1 + 1]? = some (.record 5) :=
  (destroy_frees_per_chunk_then_tracker_then_arena
    ⟨[⟨3, 2, 1, 1⟩, ⟨5, 4, 1, 1⟩], 1, 1⟩).2.2.1 1 ⟨5, 4, 1, 1⟩ (by decide)

/-! ### C3: disjointness of returned regions -/

/-- The byte range covered by a returned pointer: `el` bytes of the
buffer `p.1` starting at offset `p.2`.  A byte address is a pair
`(buffer identity, offset)` since distinct `malloc` buffers occupy
disjoint storage. -/
def bytes (el : Nat) (p : Ptr) : Set (Nat × Nat) :=
  {b | b.1 = p.1 ∧ p.2 ≤ b.2 ∧ b.2 < p.2 + el}

theorem bytes_disjoint_of_ne_buffer (el : Nat) (p q : Ptr) (hne : p.1 ≠ q.1) :
    Disjoint (bytes el p) (bytes el q) := by
  rw [Set.disjoint_left]
  rintro b ⟨h1, _, _⟩ ⟨h2, _, _⟩
  exact hne (h1.symm.trans h2)

theorem bytes_disjoint_of_le (el : Nat) (p q : Ptr) (hle : p.2 + el ≤ q.2) :
    Disjoint (bytes el p) (bytes el q) := by
  rw [Set.disjoint_left]
  rintro b ⟨_, _, hlt⟩ ⟨_, hge, _⟩
  omega

/-- The allocation invariant tying a heap, an arena and the pointers
returned so far: chunk buffers are pairwise distinct and older than the
heap frontier, every returned pointer lies below the `used` mark of its
chunk, and all returned regions are pairwise disjoint. -/
structure AllocInv (h : Heap) (a : ArenaAllocator) (ps : List Ptr) : Prop where
  nodup : (a.chunks.map Chunk.memory).Nodup
  fresh : ∀ c ∈ a.chunks, c.memory < h.nextId
  bounded : ∀ p ∈ ps, ∃ c ∈ a.chunks, p.1 = c.memory ∧ p.2 + a.el_size ≤ c.used
  disj : ps.Pairwise (fun p q => Disjoint (bytes a.el_size p) (bytes a.el_size q))

/-- One `arena_malloc` call preserves the allocation invariant, appending
the returned pointer (if any) to the history. -/
theorem arena_malloc_preserves_inv (h : Heap) (a : ArenaAllocator) (ps : List Ptr)
    (inv : AllocInv h a ps) :
    ∃ a', (arena_malloc h (some a)).2.1 = some a' ∧ a'.el_size = a.el_size ∧
      AllocInv (arena_malloc h (some a)).1 a'
        (ps ++ ((arena_malloc h (some a)).2.2).toList) := by
  by_cases hcond : a.chunks.length = 0 ∨ hasSpace a = false
  · cases hok1 : h.ok h.callCount with
    | false =>
      rw [arena_malloc_fail1 h a hcond hok1]
      refine ⟨a, rfl, rfl, inv.nodup, inv.fresh, ?_, ?_⟩
      · simpa using inv.bounded
      · simpa using inv.disj
    | true =>
      cases hok2 : h.ok (h.callCount + 1) with
      | false =>
        rw [arena_malloc_fail2 h a hcond hok1 hok2]
        refine ⟨a, rfl, rfl, inv.nodup, ?_, ?_, ?_⟩
        · intro c hc
          show c.memory < h.nextId + 1
          have := inv.fresh c hc
          omega
        · simpa using inv.bounded
        · simpa using inv.disj
      | true =>
        rw [arena_malloc_grow h a hcond hok1 hok2]
        refine ⟨⟨a.chunks ++ [⟨h.nextId + 1, h.nextId, a.el_size * a.chunk_els,
          a.el_size⟩], a.el_size, a.chunk_els⟩, rfl, rfl, ?_⟩
        refine ⟨?_, ?_, ?_, ?_⟩
        · -- nodup: the fresh buffer id is above every existing one
          rw [List.map_append, List.nodup_append]
          refine ⟨inv.nodup, by simp, ?_⟩
          intro y hy hmem
          rcases List.mem_map.mp hy with ⟨c, hc, rfl⟩
          have h1 := inv.fresh c hc
          have h2 : c.memory = h.nextId := by simpa using hmem
          omega
        · intro c hc
          show c.memory < h.nextId + 2
          rcases List.mem_append.mp hc with hc | hc
          · have := inv.fresh c hc; omega
          · rcases List.mem_singleton.mp hc with rfl
            dsimp only
            omega
        · intro p hp
          rcases List.mem_append.mp hp with hp | hp
          · obtain ⟨c, hc, h1, h2⟩ := inv.bounded p hp
            exact ⟨c, List.mem_append_left _ hc, h1, h2⟩
          · rcases List.mem_singleton.mp (by simpa using hp) with rfl
            exact ⟨⟨h.nextId + 1, h.nextId, a.el_size * a.chunk_els, a.el_size⟩,
              List.mem_append_right _ (by simp), rfl, by dsimp only; omega⟩
        · rw [List.pairwise_append]
          refine ⟨inv.disj, by simp, ?_⟩
          intro p hp q hq
          rcases List.mem_singleton.mp (by simpa using hq) with rfl
          obtain ⟨c, hc, h1, _⟩ := inv.bounded p hp
          apply bytes_disjoint_of_ne_buffer
          have := inv.fresh c hc
          rw [h1]
          dsimp only
          omega
  · push_neg at hcond
    obtain ⟨_, hsp⟩ := hcond
    obtain ⟨cs, c, hdec, hle⟩ := hasSpace_true_elim a (by simpa using hsp)
    rw [arena_malloc_hasSpace h a cs c hdec hle]
    have hcmem : c ∈ a.chunks := hdec ▸ List.mem_append_right _ (by simp)
    refine ⟨⟨cs ++ [⟨c.selfId, c.memory, c.size, c.used + a.el_size⟩],
      a.el_size, a.chunk_els⟩, rfl, rfl, ?_⟩
    refine ⟨?_, ?_, ?_, ?_⟩
    · show ((cs ++ [(⟨c.selfId, c.memory, c.size, c.used + a.el_size⟩ : Chunk)]).map
        Chunk.memory).Nodup
      have hmaps : (cs ++ [(⟨c.selfId, c.memory, c.size,
          c.used + a.el_size⟩ : Chunk)]).map Chunk.memory =
          a.chunks.map Chunk.memory := by
        rw [hdec]; simp
      rw [hmaps]
      exact inv.nodup
    · intro c2 hc2
      show c2.memory < h.nextId
      rcases List.mem_append.mp hc2 with hc2 | hc2
      · exact inv.fresh c2 (hdec ▸ List.mem_append_left _ hc2)
      · rcases List.mem_singleton.mp hc2 with rfl
        dsimp only
        exact inv.fresh c hcmem
    · intro p hp
      rcases List.mem_append.mp hp with hp | hp
      · obtain ⟨c2, hc2, h1, h2⟩ := inv.bounded p hp
        rw [hdec] at hc2
        rcases List.mem_append.mp hc2 with hc2 | hc2
        · exact ⟨c2, List.mem_append_left _ hc2, h1, h2⟩
        · have hceq : c2 = c := List.mem_singleton.mp hc2
          refine ⟨⟨c.selfId, c.memory, c.size, c.used + a.el_size⟩,
            List.mem_append_right _ (by simp), by rw [h1, hceq], ?_⟩
          rw [hceq] at h2
          dsimp only
          omega
      · rcases List.mem_singleton.mp (by simpa using hp) with rfl
        exact ⟨⟨c.selfId, c.memory, c.size, c.used + a.el_size⟩,
          List.mem_append_right _ (by simp), rfl, by dsimp only; omega⟩
    · rw [List.pairwise_append]
      refine ⟨inv.disj, by simp, ?_⟩
      intro p hp q hq
      rcases List.mem_singleton.mp (by simpa using hq) with rfl
      obtain ⟨c2, hc2, h1, h2⟩ := inv.bounded p hp
      by_cases hmem : c2.memory = c.memory
      · have hceq : c2 = c := List.inj_on_of_nodup_map inv.nodup hc2 hcmem hmem
        apply bytes_disjoint_of_le
        rw [hceq] at h2
        exact h2
      · apply bytes_disjoint_of_ne_buffer
        rw [h1]
        exact hmem

/-- Running `allocN` preserves the allocation invariant, appending every
successfully returned pointer to the history. -/
theorem allocN_preserves_inv (n : Nat) : ∀ (h : Heap) (a : ArenaAllocator) (ps : List Ptr),
    AllocInv h a ps →
    ∃ a', (allocN n h (some a)).2.1 = some a' ∧ a'.el_size = a.el_size ∧
      AllocInv (allocN n h (some a)).1 a'
        (ps ++ ((allocN n h (some a)).2.2).filterMap id) := by
  induction n with
  | zero =>
    intro h a ps inv
    exact ⟨a, rfl, rfl, by simpa [allocN] using inv⟩
  | succ n ih =>
    intro h a ps inv
    obtain ⟨a1, ha1, hel1, inv1⟩ := arena_malloc_preserves_inv h a ps inv
    rw [allocN, ha1]
    obtain ⟨a2, ha2, hel2, inv2⟩ := ih (arena_malloc h (some a)).1 a1
      (ps ++ ((arena_malloc h (some a)).2.2).toList) inv1
    refine ⟨a2, ha2, hel2.trans hel1, ?_⟩
    have hsplit : ps ++ ((arena_malloc h (some a)).2.2 ::
        (allocN n (arena_malloc h (some a)).1 (some a1)).2.2).filterMap id =
        (ps ++ ((arena_malloc h (some a)).2.2).toList) ++
          ((allocN n (arena_malloc h (some a)).1 (some a1)).2.2).filterMap id := by
      rcases (arena_malloc h (some a)).2.2 with _ | x <;> simp
    rw [hsplit]
    exact inv2

/-- C3: on an arena created with positive `elements_per_chunk` and
`element_size`, the byte ranges returned by any sequence of allocate
calls (under any malloc oracle; failed calls return no pointer) are
pairwise disjoint. -/
theorem allocations_pairwise_disjoint (ce el n : Nat) (h : Heap)
    (_hce : 0 < ce) (_hel : 0 < el) :
    ((allocN n (arena_new h ce el).1 (arena_new h ce el).2).2.2.filterMap id).Pairwise
      (fun p q => Disjoint (bytes el p) (bytes el q)) := by
  rcases arena_new_shape h ce el with hn | hn <;> rw [hn]
  · rw [allocN_none]
    simp
  · have inv0 : AllocInv (arena_new h ce el).1 ⟨[], el, ce⟩ [] :=
      ⟨by simp, by simp, by simp, List.Pairwise.nil⟩
    obtain ⟨a', ha', hel', inv'⟩ :=
      allocN_preserves_inv n (arena_new h ce el).1 ⟨[], el, ce⟩ [] inv0
    have hd := inv'.disj
    rw [hel'] at hd
    simpa using hd

/-- Witness for C3: a `create(4, 16)` arena run for 6 allocations under
`okHeap`. -/
theorem allocations_pairwise_disjoint_witness :
    ((allocN 6 (arena_new okHeap 4 16).1 (arena_new okHeap 4 16).2).2.2.filterMap
        id).Pairwise (fun p q => Disjoint (bytes 16 p) (bytes 16 q)) :=
  allocations_pairwise_disjoint 4 16 6 okHeap (by decide) (by decide)

/-- Witness for C1: `create(4, 16)` run for 4 allocations under `okHeap`. -/
theorem first_chunk_linear_offsets_witness :
    ∃ c : Chunk,
      (allocN 4 (arena_new okHeap 4 16).1 (arena_new okHeap 4 16).2).2.1 =
        some ⟨[c], 16, 4⟩ ∧
      (∀ j a', j ≤ 4 →
        (allocN j (arena_new okHeap 4 16).1 (arena_new okHeap 4 16).2).2.1 = some a' →
        a'.chunks.length ≤ 1) ∧
      (allocN 4 (arena_new okHeap 4 16).1 (arena_new okHeap 4 16).2).2.2 =
        (List.range 4).map (fun i => some (c.memory, i * 16)) :=
  first_chunk_linear_offsets 4 16 okHeap (by decide) (by decide) (fun _ => rfl)

/-- Witness for C2: `create(4, 16)` run for 5 allocations under `okHeap`. -/
theorem second_chunk_on_overflow_witness :
    ∃ c1 c2 : Chunk,
      (allocN 4 (arena_new okHeap 4 16).1 (arena_new okHeap 4 16).2).2.1 =
        some ⟨[c1], 16, 4⟩ ∧
      (allocN 5 (arena_new okHeap 4 16).1 (arena_new okHeap 4 16).2).2.1 =
        some ⟨[c1, c2], 16, 4⟩ ∧
      c2.memory ≠ c1.memory ∧
      (allocN 5 (arena_new okHeap 4 16).1 (arena_new okHeap 4 16).2).2.2 =
        (allocN 4 (arena_new okHeap 4 16).1 (arena_new okHeap 4 16).2).2.2 ++
          [some (c2.memory, 0)] :=
  second_chunk_on_overflow 4 16 okHeap (by decide) (by decide) (fun _ => rfl)

/-- Witness for C10: `create(4, 0)` run for 3 allocations under `okHeap`. -/
theorem zero_el_size_same_pointer_witness :
    ∃ c : Chunk,
      (allocN 3 (arena_new okHeap 4 0).1 (arena_new okHeap 4 0).2).2.1 =
        some ⟨[c], 0, 4⟩ ∧
      c.used = 0 ∧
      (allocN 3 (arena_new okHeap 4 0).1 (arena_new okHeap 4 0).2).2.2 =
        List.replicate 3 (some (c.memory, 0)) :=
  zero_el_size_same_pointer 4 okHeap (fun _ => rfl) 3 (by decide)

end Arena
